import Mathlib

/-!
Shallow embedding of the bell scheduling engine (`src/core/scheduler.py`):
the `Bell` data model, JSON-record (de)serialisation, and the
`BellScheduler` polling, next-bell and mutation operations.

Times of day are modelled as in Qt: a `QTimeHM` carries integer hour and
minute fields, with `⟨-1, -1⟩` standing for an invalid `QTime` (the value
`QTime.fromString` returns on an unparseable string; its `hour()` method
reports `-1`).  Current wall-clock readings are `ClockTime` triples of
naturals.  JSON bell records are `BellDict` structures whose fields are
`Option`s: `none` models an absent key, so `dict["name"]` raising
`KeyError` becomes an `Option.none` result of `Bell.from_dict`.
-/

/-- An hour/minute time of day as Qt's `QTime` exposes it to this program:
`hour`/`minute` are `-1` when the time is invalid. -/
structure QTimeHM where
  hour : Int
  minute : Int
deriving DecidableEq

/-- The invalid `QTime` (what `QTime.fromString` yields on parse failure). -/
def invalidTime : QTimeHM := ⟨-1, -1⟩

/-- Qt validity of an hour/minute time. -/
def isValidTime (t : QTimeHM) : Bool :=
  0 ≤ t.hour && t.hour < 24 && 0 ≤ t.minute && t.minute < 60

/-- Zero-padded two-digit decimal rendering used by Qt's `hh` / `mm`
format fields. -/
def two_digit (n : Int) : String :=
  String.mk [Char.ofNat (48 + n.toNat / 10), Char.ofNat (48 + n.toNat % 10)]

/-- `QTime.toString("hh:mm")`: `"HH:MM"` for a valid time, `""` for an
invalid one. -/
def timeToString (t : QTimeHM) : String :=
  if isValidTime t then two_digit t.hour ++ ":" ++ two_digit t.minute else ""

/-- ASCII decimal digit test. -/
def isDig (c : Char) : Bool := 48 ≤ c.toNat && c.toNat ≤ 57

/-- `QTime.fromString(s, "hh:mm")`: two digits, a colon, two digits, with
the hour below 24 and the minute below 60; anything else is invalid. -/
def timeFromString (s : String) : QTimeHM :=
  match s.data with
  | [h1, h2, c, m1, m2] =>
      if c = ':' ∧ isDig h1 ∧ isDig h2 ∧ isDig m1 ∧ isDig m2 then
        let hn : Nat := (h1.toNat - 48) * 10 + (h2.toNat - 48)
        let mn : Nat := (m1.toNat - 48) * 10 + (m2.toNat - 48)
        if hn < 24 ∧ mn < 60 then ⟨hn, mn⟩ else invalidTime
      else invalidTime
  | _ => invalidTime

/-- The weekday-name default for `days` (`["Monday", ..., "Friday"]`). -/
def defaultDays : List String :=
  ["Monday", "Tuesday", "Wednesday", "Thursday", "Friday"]

/-- One scheduled bell (`class Bell`).  Field names follow the source;
Python's `repeat` attribute is `«repeat»`. -/
structure Bell where
  name : String
  time : QTimeHM
  sound : String
  days : List String
  category : String
  color : String
  volume : Int
  enabled : Bool
  icon : Option String
  tts_message : Option String
  «repeat» : Bool
  urgent : Bool
  silent : Bool
  id : String
deriving DecidableEq

/-- `Bell.__init__`: a `days` argument that is `None` or the empty list is
replaced by the Monday–Friday default, and `id` is derived as
`f"{name}-{time.toString('hh:mm')}"`. -/
def mkBell (name : String) (time : QTimeHM) (sound : String)
    (days : Option (List String)) (category : String) (color : String)
    (volume : Int) (enabled : Bool) (icon : Option String)
    (tts_message : Option String) (rep : Bool) (urgent : Bool)
    (silent : Bool) : Bell :=
  { name := name
    time := time
    sound := sound
    days := match days with
            | some (d :: ds) => d :: ds
            | _ => defaultDays
    category := category
    color := color
    volume := volume
    enabled := enabled
    icon := icon
    tts_message := tts_message
    «repeat» := rep
    urgent := urgent
    silent := silent
    id := name ++ "-" ++ timeToString time }

/-- `Bell.__init__` invoked with only `name` and `time`, all other
arguments at their Python defaults. -/
def mkBellDefault (name : String) (time : QTimeHM) : Bell :=
  mkBell name time "default.mp3" none "Default" "#00a0ff" 100 true
    none none false false false

/-- A persisted JSON bell record; `none` in a field models an absent key. -/
structure BellDict where
  name : Option String
  time : Option String
  sound : Option String
  days : Option (List String)
  category : Option String
  color : Option String
  volume : Option Int
  enabled : Option Bool
  icon : Option String
  tts_message : Option String
  «repeat» : Option Bool
  urgent : Option Bool
  silent : Option Bool
  id : Option String
deriving DecidableEq

/-- `Bell.to_dict`. -/
def Bell.to_dict (b : Bell) : BellDict :=
  { name := some b.name
    time := some (timeToString b.time)
    sound := some b.sound
    days := some b.days
    category := some b.category
    color := some b.color
    volume := some b.volume
    enabled := some b.enabled
    icon := b.icon
    tts_message := b.tts_message
    «repeat» := some b.«repeat»
    urgent := some b.urgent
    silent := some b.silent
    id := some b.id }

/-- `Bell.from_dict`: `data["name"]` and `data["time"]` are mandatory
(`KeyError`, i.e. `none`, otherwise); every other field falls back to the
constructor defaults via `.get`.  The stored `id` is ignored: the
constructor re-derives it from name and parsed time. -/
def Bell.from_dict (d : BellDict) : Option Bell :=
  match d.name, d.time with
  | some name, some timeStr =>
      some (mkBell name (timeFromString timeStr)
        (d.sound.getD "default.mp3")
        (some (d.days.getD defaultDays))
        (d.category.getD "Default")
        (d.color.getD "#00a0ff")
        (d.volume.getD 100)
        (d.enabled.getD true)
        d.icon
        d.tts_message
        (d.«repeat».getD false)
        (d.urgent.getD false)
        (d.silent.getD false))
  | _, _ => none

/-- `BellScheduler.create_default_bells`: the 7-bell seed schedule. -/
def create_default_bells : List Bell :=
  [ mkBellDefault "School Start" ⟨9, 0⟩
  , mkBellDefault "Period 1" ⟨10, 30⟩
  , mkBellDefault "Break" ⟨11, 20⟩
  , mkBellDefault "Period 2" ⟨11, 35⟩
  , mkBellDefault "Lunch" ⟨12, 25⟩
  , mkBellDefault "Period 3" ⟨13, 10⟩
  , mkBellDefault "End of Day" ⟨14, 0⟩ ]

/-- `BellScheduler.save_bells`: the JSON array written to disk. -/
def save_bells (bells : List Bell) : List BellDict :=
  bells.map Bell.to_dict

/-- `BellScheduler.load_bells` on an existing, JSON-parseable file: build
a `Bell` from every record; if any record raises (missing mandatory key),
the `except` branch replaces the whole schedule with the defaults. -/
def load_bells (records : List BellDict) : List Bell :=
  match records.mapM Bell.from_dict with
  | some bells => bells
  | none => create_default_bells

/-- A wall-clock reading, as `QTime.currentTime()` (hour, minute, second). -/
structure ClockTime where
  hour : Nat
  minute : Nat
  second : Nat
deriving DecidableEq

/-- The second-of-day `t` (0 ≤ t < 86400) as a wall-clock reading. -/
def toHMS (t : Nat) : ClockTime := ⟨t / 3600, t % 3600 / 60, t % 60⟩

/-- `BellScheduler.seconds_until_time`. -/
def seconds_until_time (current : ClockTime) (target : QTimeHM) : Int :=
  let current_secs : Int := current.hour * 3600 + current.minute * 60 + current.second
  let target_secs : Int := target.hour * 3600 + target.minute * 60
  let diff := target_secs - current_secs
  if diff < 0 then diff + 24 * 3600 else diff

/-- The trigger-scan part of `BellScheduler.check_bells`: the bells whose
trigger notification is emitted on the tick at `current` on weekday
`current_day`. -/
def check_bells_triggers (bells : List Bell) (current_day : String)
    (current : ClockTime) : List Bell :=
  bells.filter (fun bell =>
    bell.enabled && bell.days.contains current_day &&
    bell.time.hour == (current.hour : Int) &&
    bell.time.minute == (current.minute : Int) &&
    current.second == 0)

/-- `seconds_until < min_seconds` with `none` as `float('inf')`. -/
def lt_inf (su : Int) (m : Option Int) : Bool :=
  match m with
  | none => true
  | some v => su < v

/-- One iteration of the `for bell in active_bells` loop of
`BellScheduler.update_next_bell`. -/
def next_bell_scan (current : ClockTime) (acc : Option Bell × Option Int)
    (bell : Bell) : Option Bell × Option Int :=
  let su := seconds_until_time current bell.time
  if 0 < su ∧ lt_inf su acc.2 = true then (some bell, some su) else acc

/-- The `min_seconds` component of one `update_next_bell` loop
iteration (the projection of `next_bell_scan` that ignores which bell
currently holds the minimum). -/
def min_seconds_fold (current : ClockTime) (ms : Option Int) (bell : Bell) :
    Option Int :=
  let su := seconds_until_time current bell.time
  if 0 < su ∧ lt_inf su ms = true then some su else ms

/-- The bells considered by `update_next_bell`: enabled and scheduled
for today. -/
def active_bells (bells : List Bell) (current_day : String) : List Bell :=
  bells.filter (fun bell => bell.enabled && bell.days.contains current_day)

/-- The `(next_bell, min_seconds)` pair `BellScheduler.update_next_bell`
computes before comparing with the stored state; `none` in the second
component is `float('inf')`. -/
def update_next_bell_calc (bells : List Bell) (current_day : String)
    (current : ClockTime) : Option Bell × Option Int :=
  (active_bells bells current_day).foldl (next_bell_scan current) (none, none)

/-- The mutable `BellScheduler` fields the next-bell logic touches. -/
structure SchedulerState where
  bells : List Bell
  next_bell : Option Bell
  seconds_to_next : Option Int
deriving DecidableEq

/-- `BellScheduler.update_next_bell` as a state transition: the new state
together with the `next_bell_changed` emission (`none` when no signal is
emitted). -/
def update_next_bell (st : SchedulerState) (current_day : String)
    (current : ClockTime) : SchedulerState × Option (Bell × Option Int) :=
  let r := update_next_bell_calc st.bells current_day current
  if r.1 ≠ st.next_bell ∨ r.2 ≠ st.seconds_to_next then
    ({ st with next_bell := r.1, seconds_to_next := r.2 },
     match r.1 with
     | some b => some (b, r.2)
     | none => none)
  else (st, none)

/-- `BellScheduler.add_bell` (list mutation part). -/
def add_bell (bells : List Bell) (bell : Bell) : List Bell :=
  bells ++ [bell]

/-- `BellScheduler.update_bell` (list mutation part): replace the first
bell whose `id` matches, then `break`. -/
def update_bell (bells : List Bell) (bell_id : String) (updated : Bell) :
    List Bell :=
  match bells with
  | [] => []
  | b :: rest =>
      if b.id = bell_id then updated :: rest
      else b :: update_bell rest bell_id updated

/-- `BellScheduler.remove_bell` (list mutation part): keep every bell
whose `id` differs. -/
def remove_bell (bells : List Bell) (bell_id : String) : List Bell :=
  bells.filter (fun bell => bell.id != bell_id)

set_option maxRecDepth 4000

/-! ### Helper lemmas -/

/-- Formatting a valid time with `hh:mm` and parsing it back is the
identity (checked over all 24 × 60 valid times). -/
theorem time_roundtrip_nat : ∀ h : Nat, h < 24 → ∀ m : Nat, m < 60 →
    timeFromString (timeToString ⟨(h : Int), (m : Int)⟩) = ⟨(h : Int), (m : Int)⟩ := by
  decide

theorem timeFromString_timeToString (t : QTimeHM) (hv : isValidTime t = true) :
    timeFromString (timeToString t) = t := by
  obtain ⟨h, m⟩ := t
  simp only [isValidTime, Bool.and_eq_true, decide_eq_true_eq] at hv
  obtain ⟨⟨⟨h0, h24⟩, m0⟩, m60⟩ := hv
  have eh : ((h.toNat : Int)) = h := Int.toNat_of_nonneg h0
  have em : ((m.toNat : Int)) = m := Int.toNat_of_nonneg m0
  have := time_roundtrip_nat h.toNat (by omega) m.toNat (by omega)
  rw [eh, em] at this
  exact this

/-- The parse/format round trip is also the identity on the invalid
time (formatted as `""`, which does not parse). -/
theorem timeFromString_timeToString_invalid :
    timeFromString (timeToString invalidTime) = invalidTime := by decide

/-! ### C2 — seconds-until computation -/

/-- C2 (counterexample): the claim wraps a raw difference that is "less
than or equal to 0" forward by 86400 seconds, but at current time
09:00:00 with target 09:00 the raw difference is 0 and the code returns
0, not 0 + 86400. -/
theorem C2_counterexample :
    ((9 * 60 + 0) * 60 : Int) - (9 * 3600 + 0 * 60 + 0) = 0 ∧
    seconds_until_time ⟨9, 0, 0⟩ ⟨9, 0⟩ = 0 ∧
    seconds_until_time ⟨9, 0, 0⟩ ⟨9, 0⟩ ≠
      (((9 * 60 + 0) * 60 : Int) - (9 * 3600 + 0 * 60 + 0)) + 86400 := by
  decide

/-- C2 (amended): for every valid current time and valid target
time-of-day, the seconds-until value equals
`((target_minute_of_day * 60) - current_second_of_day) mod 86400`, where
a raw difference that is strictly less than 0 (not: less than or equal
to 0) is wrapped forward by adding 86400 seconds; in particular with
current time 23:59:00 and target 00:05 the computed value is 360. -/
theorem C2_amended (current : ClockTime) (target : QTimeHM)
    (hch : current.hour < 24) (hcm : current.minute < 60)
    (hcs : current.second < 60) (hv : isValidTime target = true) :
    seconds_until_time current target =
      (((target.hour * 60 + target.minute) * 60) -
        ((current.hour : Int) * 3600 + current.minute * 60 + current.second)) % 86400 ∧
    ((((target.hour * 60 + target.minute) * 60) -
        ((current.hour : Int) * 3600 + current.minute * 60 + current.second)) < 0 →
      seconds_until_time current target =
        (((target.hour * 60 + target.minute) * 60) -
          ((current.hour : Int) * 3600 + current.minute * 60 + current.second)) + 86400) ∧
    seconds_until_time ⟨23, 59, 0⟩ ⟨0, 5⟩ = 360 := by
  simp only [isValidTime, Bool.and_eq_true, decide_eq_true_eq] at hv
  obtain ⟨⟨⟨h0, h24⟩, m0⟩, m60⟩ := hv
  refine ⟨?_, ?_, by decide⟩ <;>
    · simp only [seconds_until_time]
      split <;> omega

/-- C2 (witness for the amended theorem). -/
theorem C2_amended_witness :
    seconds_until_time ⟨23, 59, 0⟩ ⟨0, 5⟩ =
      (((0 * 60 + 5) * 60 : Int) - ((23 : Int) * 3600 + 59 * 60 + 0)) % 86400 := by
  have := C2_amended ⟨23, 59, 0⟩ ⟨0, 5⟩ (by decide) (by decide) (by decide) (by decide)
  exact this.1

/-! ### C5 — duplicate ids: remove vs update -/

/-- C5 (counterexample): with two bells sharing one id, `remove_bell`
does not delete only the first match — it deletes both, leaving the
empty list rather than the later duplicate. -/
theorem C5_counterexample :
    (mkBellDefault "X" ⟨8, 0⟩).id =
      (mkBell "X" ⟨8, 0⟩ "other.mp3" none "Default" "#00a0ff" 100 true
        none none false false false).id ∧
    remove_bell
      [ mkBellDefault "X" ⟨8, 0⟩
      , mkBell "X" ⟨8, 0⟩ "other.mp3" none "Default" "#00a0ff" 100 true
          none none false false false ]
      (mkBellDefault "X" ⟨8, 0⟩).id = [] ∧
    remove_bell
      [ mkBellDefault "X" ⟨8, 0⟩
      , mkBell "X" ⟨8, 0⟩ "other.mp3" none "Default" "#00a0ff" 100 true
          none none false false false ]
      (mkBellDefault "X" ⟨8, 0⟩).id ≠
      [ mkBell "X" ⟨8, 0⟩ "other.mp3" none "Default" "#00a0ff" 100 true
          none none false false false ] := by
  decide

/-- C5 (amended): when the bell list contains two or more bells sharing
the same id, `update_bell` replaces only the first bell in list order
with that id, but `remove_bell` deletes every bell with that id, not
only the first one. -/
theorem C5_amended (i : String) (b1 b2 updated : Bell) (rest : List Bell)
    (h1 : b1.id = i) (h2 : b2.id = i) :
    update_bell (b1 :: b2 :: rest) i updated = updated :: b2 :: rest ∧
    remove_bell (b1 :: b2 :: rest) i = remove_bell rest i := by
  constructor
  · simp [update_bell, h1]
  · simp [remove_bell, h1, h2]

/-- C5 (witness for the amended theorem). -/
theorem C5_amended_witness :
    update_bell
      [mkBellDefault "X" ⟨8, 0⟩, mkBellDefault "X" ⟨8, 0⟩]
      (mkBellDefault "X" ⟨8, 0⟩).id (mkBellDefault "Y" ⟨9, 30⟩) =
      [mkBellDefault "Y" ⟨9, 30⟩, mkBellDefault "X" ⟨8, 0⟩] ∧
    remove_bell [mkBellDefault "X" ⟨8, 0⟩, mkBellDefault "X" ⟨8, 0⟩]
      (mkBellDefault "X" ⟨8, 0⟩).id = remove_bell [] (mkBellDefault "X" ⟨8, 0⟩).id :=
  C5_amended (mkBellDefault "X" ⟨8, 0⟩).id _ _ _ [] rfl rfl

/-! ### C6 — removing a non-existent id is a no-op -/

/-- C6: removing a bell by an id that matches no bell leaves the
in-memory bell list unchanged, and the schedule content that would be
persisted (`save_bells`) is equal to the content before the call. -/
theorem C6_remove_nonexistent_noop (bells : List Bell) (bell_id : String)
    (h : ∀ b ∈ bells, b.id ≠ bell_id) :
    remove_bell bells bell_id = bells ∧
    save_bells (remove_bell bells bell_id) = save_bells bells := by
  have hrm : remove_bell bells bell_id = bells := by
    apply List.filter_eq_self.mpr
    intro b hb
    simpa using h b hb
  exact ⟨hrm, by rw [hrm]⟩

/-- C6 (witness). -/
theorem C6_witness :
    remove_bell create_default_bells "Nonexistent-00:00" = create_default_bells ∧
    save_bells (remove_bell create_default_bells "Nonexistent-00:00") =
      save_bells create_default_bells :=
  C6_remove_nonexistent_noop create_default_bells "Nonexistent-00:00" (by decide)

/-! ### C7 — default schedule and the Wednesday 09:00:00 scenario -/

/-- C7: the seeded default schedule is exactly the 7 bells School Start
09:00, Period 1 10:30, Break 11:20, Period 2 11:35, Lunch 12:25,
Period 3 13:10 and End of Day 14:00, all scheduled Monday through Friday
and all enabled; polling on a Wednesday at 09:00:00 emits a trigger for
exactly the "School Start" bell, and the next-bell computation yields
"Period 1" with 5400 seconds to go. -/
theorem C7_default_schedule_scenario :
    create_default_bells.map
        (fun b => (b.name, b.time, b.days, b.enabled)) =
      [ ("School Start", (⟨9, 0⟩ : QTimeHM),
          ["Monday", "Tuesday", "Wednesday", "Thursday", "Friday"], true)
      , ("Period 1", (⟨10, 30⟩ : QTimeHM),
          ["Monday", "Tuesday", "Wednesday", "Thursday", "Friday"], true)
      , ("Break", (⟨11, 20⟩ : QTimeHM),
          ["Monday", "Tuesday", "Wednesday", "Thursday", "Friday"], true)
      , ("Period 2", (⟨11, 35⟩ : QTimeHM),
          ["Monday", "Tuesday", "Wednesday", "Thursday", "Friday"], true)
      , ("Lunch", (⟨12, 25⟩ : QTimeHM),
          ["Monday", "Tuesday", "Wednesday", "Thursday", "Friday"], true)
      , ("Period 3", (⟨13, 10⟩ : QTimeHM),
          ["Monday", "Tuesday", "Wednesday", "Thursday", "Friday"], true)
      , ("End of Day", (⟨14, 0⟩ : QTimeHM),
          ["Monday", "Tuesday", "Wednesday", "Thursday", "Friday"], true) ] ∧
    check_bells_triggers create_default_bells "Wednesday" ⟨9, 0, 0⟩ =
      [mkBellDefault "School Start" ⟨9, 0⟩] ∧
    update_next_bell_calc create_default_bells "Wednesday" ⟨9, 0, 0⟩ =
      (some (mkBellDefault "Period 1" ⟨10, 30⟩), some 5400) := by
  decide

/-! ### C9 — the days list is never empty after construction or load -/

/-- C9: every bell produced by the constructor has a non-empty `days`
list (an absent or empty `days` argument is replaced by the
Monday–Friday default), and so does every bell produced by
`Bell.from_dict`. -/
theorem C9_days_nonempty :
    (∀ (name : String) (time : QTimeHM) (sound : String)
        (days : Option (List String)) (category color : String)
        (volume : Int) (enabled : Bool) (icon tts_message : Option String)
        (rep urgent silent : Bool),
      (mkBell name time sound days category color volume enabled icon
          tts_message rep urgent silent).days ≠ []) ∧
    (∀ (d : BellDict) (b : Bell), Bell.from_dict d = some b → b.days ≠ []) := by
  have hmk : ∀ (name : String) (time : QTimeHM) (sound : String)
      (days : Option (List String)) (category color : String)
      (volume : Int) (enabled : Bool) (icon tts_message : Option String)
      (rep urgent silent : Bool),
      (mkBell name time sound days category color volume enabled icon
          tts_message rep urgent silent).days ≠ [] := by
    intro name time sound days category color volume enabled icon tts rep urgent silent
    simp only [mkBell]
    match days with
    | none => simp [defaultDays]
    | some [] => simp [defaultDays]
    | some (d :: ds) => simp
  refine ⟨hmk, ?_⟩
  intro d b hb
  unfold Bell.from_dict at hb
  match hname : d.name, htime : d.time with
  | some name, some timeStr =>
      rw [hname, htime] at hb
      simp only [Option.some.injEq] at hb
      rw [← hb]
      apply hmk
  | some _, none => rw [hname, htime] at hb; exact absurd hb (by simp)
  | none, _ => rw [hname] at hb; exact absurd hb (by simp)

/-- C9 (witness, discharging the `from_dict` hypothesis of the second
conjunct at a concrete record). -/
theorem C9_witness :
    (mkBellDefault "Assembly" ⟨8, 30⟩).days ≠ [] :=
  C9_days_nonempty.2 (Bell.to_dict (mkBellDefault "Assembly" ⟨8, 30⟩))
    (mkBellDefault "Assembly" ⟨8, 30⟩) (by decide)

/-! ### C3 — save/load round trip -/

/-- A `Bell` produced by the constructor (hence by `from_dict`, `add_bell`
or the default seeding) survives the `to_dict`/`from_dict` round trip:
the time is valid or the single invalid time, the days list is
non-empty, and the id carries the constructor's `name-hh:mm` shape. -/
theorem from_dict_to_dict (b : Bell)
    (hv : isValidTime b.time = true ∨ b.time = invalidTime)
    (hd : b.days ≠ [])
    (hid : b.id = b.name ++ "-" ++ timeToString b.time) :
    Bell.from_dict (Bell.to_dict b) = some b := by
  have htime : timeFromString (timeToString b.time) = b.time := by
    rcases hv with h | h
    · exact timeFromString_timeToString _ h
    · rw [h]; exact timeFromString_timeToString_invalid
  obtain ⟨d0, ds0, hds⟩ := List.exists_cons_of_ne_nil hd
  simp only [Bell.to_dict, Bell.from_dict, Option.getD_some, Option.some.injEq]
  rw [htime]
  simp only [mkBell, hds]
  cases b with
  | mk name time sound days category color volume enabled icon tts rep urgent silent id =>
    simp_all

/-- Saving a list of constructor-produced bells gives records that all
parse back, to exactly the original bells. -/
theorem mapM_from_dict_save (bells : List Bell) :
    (∀ b ∈ bells, (isValidTime b.time = true ∨ b.time = invalidTime) ∧
      b.days ≠ [] ∧ b.id = b.name ++ "-" ++ timeToString b.time) →
    (save_bells bells).mapM Bell.from_dict = some bells := by
  induction bells with
  | nil => intro _; rfl
  | cons b rest ih =>
      intro h
      have hb := h b (by simp)
      have hrest := ih (fun x hx => h x (by simp [hx]))
      simp only [save_bells, List.map_cons, List.mapM_cons] at hrest ⊢
      rw [from_dict_to_dict b hb.1 hb.2.1 hb.2.2, hrest]
      rfl

/-- C3: saving a list of bell definitions and loading it back yields
bells equal in all fields to the originals, in the same order; in
particular every bell's id is unchanged by the round trip. -/
theorem C3_save_load_roundtrip (bells : List Bell)
    (h : ∀ b ∈ bells, (isValidTime b.time = true ∨ b.time = invalidTime) ∧
      b.days ≠ [] ∧ b.id = b.name ++ "-" ++ timeToString b.time) :
    load_bells (save_bells bells) = bells ∧
    (load_bells (save_bells bells)).map Bell.id = bells.map Bell.id := by
  have hm := mapM_from_dict_save bells h
  unfold load_bells
  rw [hm]
  exact ⟨rfl, rfl⟩

/-- C3 (witness, at the default schedule). -/
theorem C3_witness :
    load_bells (save_bells create_default_bells) = create_default_bells :=
  (C3_save_load_roundtrip create_default_bells (by decide)).1

/-! ### C4 — malformed records during load -/

/-- A record that fails to parse poisons the whole `mapM`. -/
theorem mapM_from_dict_eq_none (records : List BellDict) (r : BellDict)
    (hr : r ∈ records) (hnone : Bell.from_dict r = none) :
    records.mapM Bell.from_dict = none := by
  induction records with
  | nil => cases hr
  | cons a rest ih =>
      rw [List.mapM_cons]
      rcases List.mem_cons.mp hr with h | h
      · subst h; rw [hnone]; rfl
      · cases ha : Bell.from_dict a with
        | none => rfl
        | some b => rw [ih h]; rfl

/-- A successful `mapM` parse yields one bell per record. -/
theorem mapM_from_dict_length (records : List BellDict) :
    ∀ bells : List Bell, records.mapM Bell.from_dict = some bells →
      bells.length = records.length := by
  induction records with
  | nil => intro bells h; simp only [List.mapM_nil] at h; cases h; rfl
  | cons a rest ih =>
      intro bells h
      rw [List.mapM_cons] at h
      cases ha : Bell.from_dict a with
      | none => rw [ha] at h; cases h
      | some b =>
          rw [ha] at h
          cases hrest : rest.mapM Bell.from_dict with
          | none => rw [hrest] at h; cases h
          | some bs =>
              rw [hrest] at h
              cases h
              simp [ih bs hrest]

/-- C4 (counterexample): a single record missing its `time` key makes
`load_bells` abandon the entire load — the well-formed "Assembly" record
in the same file is not loaded; the whole schedule is replaced by the
defaults. -/
theorem C4_counterexample :
    Bell.from_dict
      { name := some "Broken", time := none, sound := none, days := none,
        category := none, color := none, volume := none, enabled := none,
        icon := none, tts_message := none, «repeat» := none, urgent := none,
        silent := none, id := none } = none ∧
    load_bells
      [ Bell.to_dict (mkBellDefault "Assembly" ⟨8, 30⟩)
      , { name := some "Broken", time := none, sound := none, days := none,
          category := none, color := none, volume := none, enabled := none,
          icon := none, tts_message := none, «repeat» := none, urgent := none,
          silent := none, id := none } ] = create_default_bells ∧
    mkBellDefault "Assembly" ⟨8, 30⟩ ∉
      load_bells
        [ Bell.to_dict (mkBellDefault "Assembly" ⟨8, 30⟩)
        , { name := some "Broken", time := none, sound := none, days := none,
            category := none, color := none, volume := none, enabled := none,
            icon := none, tts_message := none, «repeat» := none, urgent := none,
            silent := none, id := none } ] := by
  decide

/-- C4 (amended): a bell record that raises during parse (a missing
`name` or `time` key) causes the entire load to be abandoned and the
whole schedule replaced by the seeded defaults — the other records in
the file are NOT loaded; when every record parses, all records are
loaded one bell per record; and a record whose `time` value is merely an
unparseable string does not raise — it still parses to a bell (with an
invalid time), so it alone never aborts the load. -/
theorem C4_amended :
    (∀ (records : List BellDict) (r : BellDict), r ∈ records →
      Bell.from_dict r = none → load_bells records = create_default_bells) ∧
    (∀ (records : List BellDict) (bells : List Bell),
      records.mapM Bell.from_dict = some bells →
      load_bells records = bells ∧ bells.length = records.length) ∧
    (∀ (d : BellDict) (nm ts : String), d.name = some nm → d.time = some ts →
      (Bell.from_dict d).isSome = true) := by
  refine ⟨?_, ?_, ?_⟩
  · intro records r hr hnone
    unfold load_bells
    rw [mapM_from_dict_eq_none records r hr hnone]
  · intro records bells h
    unfold load_bells
    rw [h]
    exact ⟨rfl, mapM_from_dict_length records bells h⟩
  · intro d nm ts h1 h2
    unfold Bell.from_dict
    rw [h1, h2]
    rfl

/-- C4 (witness for the amended theorem). -/
theorem C4_amended_witness :
    load_bells
      [ { name := some "Broken", time := none, sound := none, days := none,
          category := none, color := none, volume := none, enabled := none,
          icon := none, tts_message := none, «repeat» := none, urgent := none,
          silent := none, id := none } ] = create_default_bells :=
  C4_amended.1 _
    { name := some "Broken", time := none, sound := none, days := none,
      category := none, color := none, volume := none, enabled := none,
      icon := none, tts_message := none, «repeat» := none, urgent := none,
      silent := none, id := none } (by decide) (by decide)

/-! ### C1 — exactly-once firing over a simulated day -/

/-- C1: for a bell that is enabled, scheduled on weekday `day`, and has a
valid time, polling once per second across a full day (ticks 0–86399)
with the weekday fixed emits its trigger notification on exactly one
tick — the tick whose wall-clock reading is the bell's (hour, minute)
with second 0. -/
theorem C1_exactly_once (bells : List Bell) (b : Bell) (day : String)
    (hmem : b ∈ bells) (hen : b.enabled = true)
    (hday : b.days.contains day = true) (hv : isValidTime b.time = true) :
    (Finset.range 86400).filter
        (fun t => b ∈ check_bells_triggers bells day (toHMS t)) =
      {b.time.hour.toNat * 3600 + b.time.minute.toNat * 60} ∧
    ((Finset.range 86400).filter
        (fun t => b ∈ check_bells_triggers bells day (toHMS t))).card = 1 ∧
    toHMS (b.time.hour.toNat * 3600 + b.time.minute.toNat * 60) =
      ⟨b.time.hour.toNat, b.time.minute.toNat, 0⟩ := by
  simp only [isValidTime, Bool.and_eq_true, decide_eq_true_eq] at hv
  obtain ⟨⟨⟨h0, h24⟩, m0⟩, m60⟩ := hv
  have heq : (Finset.range 86400).filter
      (fun t => b ∈ check_bells_triggers bells day (toHMS t)) =
      {b.time.hour.toNat * 3600 + b.time.minute.toNat * 60} := by
    ext t
    simp only [Finset.mem_filter, Finset.mem_range, Finset.mem_singleton,
      check_bells_triggers, List.mem_filter, toHMS, hmem, hen, hday,
      Bool.and_eq_true, beq_iff_eq, decide_eq_true_eq, true_and]
    omega
  refine ⟨heq, by rw [heq]; rfl, ?_⟩
  simp only [toHMS, ClockTime.mk.injEq]
  refine ⟨by omega, by omega, by omega⟩

/-- C1 (witness, at the default School Start bell on a Wednesday). -/
theorem C1_witness :
    (Finset.range 86400).filter
        (fun t => mkBellDefault "School Start" ⟨9, 0⟩ ∈
          check_bells_triggers create_default_bells "Wednesday" (toHMS t)) =
      {(mkBellDefault "School Start" ⟨9, 0⟩).time.hour.toNat * 3600 +
        (mkBellDefault "School Start" ⟨9, 0⟩).time.minute.toNat * 60} ∧
    ((Finset.range 86400).filter
        (fun t => mkBellDefault "School Start" ⟨9, 0⟩ ∈
          check_bells_triggers create_default_bells "Wednesday" (toHMS t))).card = 1 ∧
    toHMS ((mkBellDefault "School Start" ⟨9, 0⟩).time.hour.toNat * 3600 +
        (mkBellDefault "School Start" ⟨9, 0⟩).time.minute.toNat * 60) =
      ⟨(mkBellDefault "School Start" ⟨9, 0⟩).time.hour.toNat,
        (mkBellDefault "School Start" ⟨9, 0⟩).time.minute.toNat, 0⟩ :=
  C1_exactly_once create_default_bells (mkBellDefault "School Start" ⟨9, 0⟩)
    "Wednesday" (by decide) (by decide) (by decide) (by decide)

/-! ### C10 — no notification when there is no next bell -/

/-- Along the `update_next_bell` loop, `next_bell` and `min_seconds` are
`None`/infinite together. -/
theorem next_bell_scan_none_iff (current : ClockTime) :
    ∀ (l : List Bell) (acc : Option Bell × Option Int),
      (acc.1 = none ↔ acc.2 = none) →
      ((l.foldl (next_bell_scan current) acc).1 = none ↔
        (l.foldl (next_bell_scan current) acc).2 = none) := by
  intro l
  induction l with
  | nil => intro acc h; simpa using h
  | cons b rest ih =>
      intro acc h
      simp only [List.foldl_cons]
      apply ih
      simp only [next_bell_scan]
      split
      · simp
      · exact h

/-- C10: when the recomputation finds no eligible bell, `update_next_bell`
emits no `next_bell_changed` notification and silently leaves the state
with `next_bell = None` and `seconds_to_next` infinite. -/
theorem C10_no_emission_without_next_bell (st : SchedulerState)
    (day : String) (current : ClockTime)
    (h : (update_next_bell_calc st.bells day current).1 = none) :
    (update_next_bell st day current).2 = none ∧
    (update_next_bell st day current).1.next_bell = none ∧
    (update_next_bell st day current).1.seconds_to_next = none := by
  have hms : (update_next_bell_calc st.bells day current).2 = none :=
    (next_bell_scan_none_iff current (active_bells st.bells day)
      (none, none) (by simp)).mp h
  unfold update_next_bell
  simp only [h, hms]
  split
  · exact ⟨rfl, rfl, rfl⟩
  · rename_i hcond
    push_neg at hcond
    exact ⟨rfl, hcond.1.symm, hcond.2.symm⟩

/-- C10 (witness: the default schedule has no Sunday bell). -/
theorem C10_witness :
    (update_next_bell ⟨create_default_bells, none, none⟩ "Sunday" ⟨12, 0, 0⟩).2 = none ∧
    (update_next_bell ⟨create_default_bells, none, none⟩ "Sunday" ⟨12, 0, 0⟩).1.next_bell = none ∧
    (update_next_bell ⟨create_default_bells, none, none⟩ "Sunday" ⟨12, 0, 0⟩).1.seconds_to_next = none :=
  C10_no_emission_without_next_bell ⟨create_default_bells, none, none⟩
    "Sunday" ⟨12, 0, 0⟩ (by decide)

/-! ### C8 — the next-bell countdown decreases by one per tick -/

/-- Closed form of `seconds_until_time` at the second-of-day `t`. -/
theorem seconds_until_toHMS (bt : QTimeHM) (t : Nat) :
    seconds_until_time (toHMS t) bt =
      if bt.hour * 3600 + bt.minute * 60 - (t : Int) < 0
      then bt.hour * 3600 + bt.minute * 60 - (t : Int) + 86400
      else bt.hour * 3600 + bt.minute * 60 - (t : Int) := by
  simp only [seconds_until_time, toHMS]
  have hsum : ((t / 3600 : Nat) : Int) * 3600 + ((t % 3600 / 60 : Nat) : Int) * 60 +
      ((t % 60 : Nat) : Int) = (t : Int) := by omega
  rw [hsum]
  norm_num

/-- One second later, a bell's seconds-until value drops by exactly 1,
except at the firing second itself, where it wraps to 86399. -/
theorem seconds_until_succ (bt : QTimeHM) (t : Nat)
    (hv : isValidTime bt = true) (ht : t + 1 < 86400) :
    seconds_until_time (toHMS (t + 1)) bt =
      if seconds_until_time (toHMS t) bt = 0 then 86399
      else seconds_until_time (toHMS t) bt - 1 := by
  simp only [isValidTime, Bool.and_eq_true, decide_eq_true_eq] at hv
  obtain ⟨⟨⟨h0, h24⟩, m0⟩, m60⟩ := hv
  rw [seconds_until_toHMS, seconds_until_toHMS]
  push_cast
  split_ifs <;> omega

/-- For a valid bell time and an in-day tick, the seconds-until value
lies in `[0, 86400)`. -/
theorem seconds_until_bounds (bt : QTimeHM) (t : Nat)
    (hv : isValidTime bt = true) (ht : t < 86400) :
    0 ≤ seconds_until_time (toHMS t) bt ∧
      seconds_until_time (toHMS t) bt < 86400 := by
  simp only [isValidTime, Bool.and_eq_true, decide_eq_true_eq] at hv
  obtain ⟨⟨⟨h0, h24⟩, m0⟩, m60⟩ := hv
  rw [seconds_until_toHMS]
  split_ifs <;> constructor <;> omega

/-- The `min_seconds` component of the `update_next_bell` loop ignores
which bell holds the minimum. -/
theorem foldl_scan_snd (current : ClockTime) :
    ∀ (l : List Bell) (acc : Option Bell × Option Int),
      (l.foldl (next_bell_scan current) acc).2 =
        l.foldl (min_seconds_fold current) acc.2 := by
  intro l
  induction l with
  | nil => intro acc; rfl
  | cons b rest ih =>
      intro acc
      simp only [List.foldl_cons]
      rw [ih (next_bell_scan current acc b)]
      congr 1
      by_cases h : 0 < seconds_until_time current b.time ∧
          lt_inf (seconds_until_time current b.time) acc.2 = true
      · simp [next_bell_scan, min_seconds_fold, h]
      · simp [next_bell_scan, min_seconds_fold, h]

/-- What the `min_seconds` fold computes: if it ends on `None`/infinity
the accumulator started there and no bell had a positive seconds-until
value; if it ends on `some s` then `s` is either the start value or a
positive seconds-until value attained on the list, is at most the start
value, and lower-bounds every positive seconds-until value on the
list. -/
theorem min_seconds_foldl_char (current : ClockTime) :
    ∀ (l : List Bell) (ms0 : Option Int),
      (l.foldl (min_seconds_fold current) ms0 = none →
        ms0 = none ∧ ∀ b ∈ l, ¬ (0 < seconds_until_time current b.time)) ∧
      (∀ s : Int, l.foldl (min_seconds_fold current) ms0 = some s →
        (ms0 = some s ∨
          (∃ b ∈ l, seconds_until_time current b.time = s ∧ 0 < s)) ∧
        (∀ v : Int, ms0 = some v → s ≤ v) ∧
        (∀ b ∈ l, 0 < seconds_until_time current b.time →
          s ≤ seconds_until_time current b.time)) := by
  intro l
  induction l with
  | nil =>
      intro ms0
      constructor
      · intro h
        simp only [List.foldl_nil] at h
        exact ⟨h, by simp⟩
      · intro s h
        simp only [List.foldl_nil] at h
        refine ⟨Or.inl h, ?_, by simp⟩
        intro v hv
        rw [h] at hv
        injection hv with hv
        omega
  | cons b rest ih =>
      intro ms0
      simp only [List.foldl_cons]
      by_cases hc : 0 < seconds_until_time current b.time ∧
          lt_inf (seconds_until_time current b.time) ms0 = true
      · have step : min_seconds_fold current ms0 b =
            some (seconds_until_time current b.time) := by
          simp only [min_seconds_fold]
          rw [if_pos hc]
        rw [step]
        obtain ⟨ihn, ihs⟩ := ih (some (seconds_until_time current b.time))
        constructor
        · intro h
          exact absurd (ihn h).1 (by simp)
        · intro s h
          obtain ⟨hattain, hini, hbound⟩ := ihs s h
          refine ⟨?_, ?_, ?_⟩
          · rcases hattain with h1 | ⟨b', hb', hb's, hb'pos⟩
            · right
              injection h1 with h1
              exact ⟨b, by simp, h1, h1 ▸ hc.1⟩
            · exact Or.inr ⟨b', by simp [hb'], hb's, hb'pos⟩
          · intro v hv
            have hsu_le : s ≤ seconds_until_time current b.time := hini _ rfl
            have hlt : seconds_until_time current b.time < v := by
              rw [hv] at hc
              simpa [lt_inf] using hc.2
            omega
          · intro b' hb' hpos
            rcases List.mem_cons.mp hb' with rfl | hmem
            · exact hini _ rfl
            · exact hbound b' hmem hpos
      · have step : min_seconds_fold current ms0 b = ms0 := by
          simp only [min_seconds_fold]
          rw [if_neg hc]
        rw [step]
        obtain ⟨ihn, ihs⟩ := ih ms0
        constructor
        · intro h
          obtain ⟨h0, hall⟩ := ihn h
          refine ⟨h0, ?_⟩
          intro b' hb'
          rcases List.mem_cons.mp hb' with rfl | hmem
          · intro hpos
            apply hc
            refine ⟨hpos, ?_⟩
            rw [h0]
            rfl
          · exact hall b' hmem
        · intro s h
          obtain ⟨hattain, hini, hbound⟩ := ihs s h
          refine ⟨?_, hini, ?_⟩
          · rcases hattain with h1 | ⟨b', hb', e, p⟩
            · exact Or.inl h1
            · exact Or.inr ⟨b', by simp [hb'], e, p⟩
          · intro b' hb' hpos
            rcases List.mem_cons.mp hb' with rfl | hmem
            · cases hms0 : ms0 with
              | none =>
                  rw [hms0] at hc
                  exact absurd ⟨hpos, rfl⟩ hc
              | some w =>
                  have hw : ¬ seconds_until_time current b'.time < w := by
                    intro hlt
                    apply hc
                    rw [hms0]
                    exact ⟨hpos, by simpa [lt_inf] using hlt⟩
                  have hsw := hini w hms0
                  omega
            · exact hbound b' hmem hpos

/-- The computed `min_seconds` value one tick later is exactly one less,
while it is still above 1. -/
theorem calc_min_succ (bells : List Bell) (day : String) (t : Nat) (s : Int)
    (hv : ∀ b ∈ bells, isValidTime b.time = true) (ht : t + 1 < 86400)
    (hs : (update_next_bell_calc bells day (toHMS t)).2 = some s)
    (hs1 : 1 < s) :
    (update_next_bell_calc bells day (toHMS (t + 1))).2 = some (s - 1) := by
  have hvact : ∀ b ∈ active_bells bells day, isValidTime b.time = true := by
    intro b hb
    exact hv b (List.mem_filter.mp hb).1
  rw [update_next_bell_calc, foldl_scan_snd] at hs
  rw [update_next_bell_calc, foldl_scan_snd]
  obtain ⟨hattain, _, hbound⟩ :=
    (min_seconds_foldl_char (toHMS t) (active_bells bells day) none).2 s hs
  rcases hattain with h | ⟨b0, hb0, hb0s, hb0pos⟩
  · exact absurd h (by simp)
  have hb0v := hvact b0 hb0
  have hs_ub : s < 86400 := by
    have := (seconds_until_bounds b0.time t hb0v (by omega)).2
    omega
  have hsucc0 := seconds_until_succ b0.time t hb0v ht
  have hb0succ : seconds_until_time (toHMS (t + 1)) b0.time = s - 1 := by
    rw [hsucc0, hb0s, if_neg (by omega)]
  cases hres : (active_bells bells day).foldl (min_seconds_fold (toHMS (t + 1))) none with
  | none =>
      exfalso
      obtain ⟨_, hall⟩ :=
        (min_seconds_foldl_char (toHMS (t + 1)) (active_bells bells day) none).1 hres
      exact hall b0 hb0 (by rw [hb0succ]; omega)
  | some s2 =>
      obtain ⟨hattain2, _, hbound2⟩ :=
        (min_seconds_foldl_char (toHMS (t + 1)) (active_bells bells day) none).2 s2 hres
      have h1 : s2 ≤ s - 1 := by
        have := hbound2 b0 hb0 (by rw [hb0succ]; omega)
        rw [hb0succ] at this
        exact this
      rcases hattain2 with h | ⟨b1, hb1, hb1s, hb1pos⟩
      · exact absurd h (by simp)
      have hb1v := hvact b1 hb1
      have hsucc1 := seconds_until_succ b1.time t hb1v ht
      simp only [Option.some.injEq]
      by_cases hz : seconds_until_time (toHMS t) b1.time = 0
      · rw [hsucc1, if_pos hz] at hb1s
        omega
      · rw [hsucc1, if_neg hz] at hb1s
        have hpos_t : 0 < seconds_until_time (toHMS t) b1.time := by
          have := (seconds_until_bounds b1.time t hb1v (by omega)).1
          omega
        have := hbound b1 hb1 hpos_t
        omega

/-- `update_next_bell` never touches the bell list. -/
theorem update_next_bell_bells (st : SchedulerState) (day : String)
    (current : ClockTime) :
    (update_next_bell st day current).1.bells = st.bells := by
  simp only [update_next_bell]
  split <;> rfl

/-- After `update_next_bell`, the stored `seconds_to_next` equals the
freshly computed `min_seconds` (whether or not it changed). -/
theorem update_next_bell_seconds (st : SchedulerState) (day : String)
    (current : ClockTime) :
    (update_next_bell st day current).1.seconds_to_next =
      (update_next_bell_calc st.bells day current).2 := by
  simp only [update_next_bell]
  split
  · rfl
  · rename_i hcond
    push_neg at hcond
    exact hcond.2.symm

/-- C8: absent mutations, if polling at second-of-day `t` leaves
`seconds_to_next = s` with `s > 1` (the countdown has not yet reached
its wrap at the firing minute), polling one second later on the same
day leaves `seconds_to_next = s - 1`. -/
theorem C8_countdown (st : SchedulerState) (day : String) (t : Nat) (s : Int)
    (hv : ∀ b ∈ st.bells, isValidTime b.time = true) (ht : t + 1 < 86400)
    (hs1 : 1 < s)
    (hs : (update_next_bell st day (toHMS t)).1.seconds_to_next = some s) :
    (update_next_bell (update_next_bell st day (toHMS t)).1 day
        (toHMS (t + 1))).1.seconds_to_next = some (s - 1) := by
  rw [update_next_bell_seconds] at hs
  rw [update_next_bell_seconds, update_next_bell_bells]
  exact calc_min_succ st.bells day t s hv ht hs hs1

/-- C8 (witness: Wednesday 09:00:00 and 09:00:01 on the default
schedule, counting down to Period 1). -/
theorem C8_witness :
    (update_next_bell (update_next_bell ⟨create_default_bells, none, none⟩
        "Wednesday" (toHMS 32400)).1 "Wednesday"
        (toHMS (32400 + 1))).1.seconds_to_next = some (5400 - 1) :=
  C8_countdown ⟨create_default_bells, none, none⟩ "Wednesday" 32400 5400
    (by decide) (by decide) (by decide) (by decide)
